import Mathlib

/-!
Shallow embedding of `group_check.py` (student group conflict checker).

Members are Python strings, modelled as Lean `String`.  Python compares
strings lexicographically by code point; this is modelled executably by
`charListLeb` on the underlying character lists (Lean's `Char` order is the
code-point order).  Python `set`s of hashable values are modelled as
`Finset`s, and `sorted` on such a set as an insertion sort lifted to the
underlying multiset (`sortedMembers`), which returns the unique
lexicographically sorted duplicate-free listing, exactly as Python's
`sorted` does on a set.  `itertools.combinations(l, 2)` is modelled by
`comb2`, which enumerates the position pairs `(i, j)` with `i < j` in the
same lexicographic order.  All definitions are total computable functions,
mirroring the fact that the engine raises no exceptions on well-typed input.
-/

namespace GroupCheck

/-- Model of `itertools.combinations(l, 2)`: the pairs `(l[i], l[j])` for `i < j`,
enumerated in lexicographic order of `(i, j)`. -/
def comb2 {α : Type} : List α → List (α × α)
  | [] => []
  | x :: xs => (xs.map fun y => (x, y)) ++ comb2 xs

/-- Python's `<=` on strings, as code-point lexicographic comparison of the
character lists. -/
def charListLeb : List Char → List Char → Bool
  | [], _ => true
  | _ :: _, [] => false
  | c :: cs, d :: ds => if c < d then true else if d < c then false else charListLeb cs ds

/-- Python's `s1 <= s2` as a proposition. -/
def strle (a b : String) : Prop := charListLeb a.data b.data = true

instance : DecidableRel strle := fun _ _ => instDecidableEqBool _ _

/-- Model of `tuple(sorted([a, b]))`: the canonical (alphabetically ordered) pair. -/
def sortPair (a b : String) : String × String :=
  if charListLeb a.data b.data then (a, b) else (b, a)

/-- The pairs contributed by one previous group, in enumeration order
(the body of the loop in `GroupChecker._build_pair_set`). -/
def pairList (group : List String) : List (String × String) :=
  (comb2 group).map fun p => sortPair p.1 p.2

/-- Model of `GroupChecker._build_pair_set`: the set of all normalized student pairs
drawn from the groups. -/
def build_pair_set (groups : List (List String)) : Finset (String × String) :=
  ((groups.map pairList).flatten).toFinset

/-- Model of `GroupChecker._get_all_students`: the set of all student names occurring
in the groups. -/
def get_all_students (groups : List (List String)) : Finset String :=
  groups.flatten.toFinset

theorem charListLeb_cons_iff (c d : Char) (cs ds : List Char) :
    charListLeb (c :: cs) (d :: ds) = true ↔
      c < d ∨ (c = d ∧ charListLeb cs ds = true) := by
  by_cases h1 : c < d
  · simp [charListLeb, h1]
  · by_cases h2 : d < c
    · have hne : c ≠ d := fun h => absurd (h ▸ h2) (lt_irrefl c)
      simp [charListLeb, h1, h2, hne]
    · have heq : c = d := le_antisymm (not_lt.mp h2) (not_lt.mp h1)
      simp [charListLeb, h1, h2, heq]

theorem charListLeb_total : ∀ x y : List Char,
    charListLeb x y = true ∨ charListLeb y x = true
  | [], _ => Or.inl rfl
  | _ :: _, [] => Or.inr rfl
  | c :: cs, d :: ds => by
    rcases lt_trichotomy c d with h | h | h
    · exact Or.inl ((charListLeb_cons_iff c d cs ds).mpr (Or.inl h))
    · rcases charListLeb_total cs ds with ih | ih
      · exact Or.inl ((charListLeb_cons_iff c d cs ds).mpr (Or.inr ⟨h, ih⟩))
      · exact Or.inr ((charListLeb_cons_iff d c ds cs).mpr (Or.inr ⟨h.symm, ih⟩))
    · exact Or.inr ((charListLeb_cons_iff d c ds cs).mpr (Or.inl h))

theorem charListLeb_antisymm : ∀ x y : List Char,
    charListLeb x y = true → charListLeb y x = true → x = y
  | [], [] => fun _ _ => rfl
  | [], _ :: _ => fun _ h => by simp [charListLeb] at h
  | _ :: _, [] => fun h _ => by simp [charListLeb] at h
  | c :: cs, d :: ds => fun h1 h2 => by
    rcases (charListLeb_cons_iff c d cs ds).mp h1 with h | ⟨rfl, hcs⟩
    · rcases (charListLeb_cons_iff d c ds cs).mp h2 with h' | ⟨h', _⟩
      · exact absurd (h.trans h') (lt_irrefl c)
      · exact absurd (h' ▸ h) (lt_irrefl d)
    · rcases (charListLeb_cons_iff c c ds cs).mp h2 with h' | ⟨_, hds⟩
      · exact absurd h' (lt_irrefl c)
      · exact congrArg (c :: ·) (charListLeb_antisymm cs ds hcs hds)

theorem charListLeb_trans : ∀ x y z : List Char,
    charListLeb x y = true → charListLeb y z = true → charListLeb x z = true
  | [], _, _ => fun _ _ => rfl
  | _ :: _, [], _ => fun h _ => by simp [charListLeb] at h
  | _ :: _, _ :: _, [] => fun _ h => by simp [charListLeb] at h
  | c :: cs, d :: ds, e :: es => fun h1 h2 => by
    rcases (charListLeb_cons_iff c d cs ds).mp h1 with h | ⟨hcd, hcs⟩
    · rcases (charListLeb_cons_iff d e ds es).mp h2 with h' | ⟨hde, hds⟩
      · exact (charListLeb_cons_iff c e cs es).mpr (Or.inl (h.trans h'))
      · exact (charListLeb_cons_iff c e cs es).mpr
          (Or.inl (lt_of_lt_of_le h (le_of_eq hde)))
    · rcases (charListLeb_cons_iff d e ds es).mp h2 with h' | ⟨hde, hds⟩
      · exact (charListLeb_cons_iff c e cs es).mpr
          (Or.inl (lt_of_le_of_lt (le_of_eq hcd) h'))
      · exact (charListLeb_cons_iff c e cs es).mpr
          (Or.inr ⟨hcd.trans hde, charListLeb_trans cs ds es hcs hds⟩)

instance : IsTotal String strle := ⟨fun a b => charListLeb_total a.data b.data⟩

instance : IsTrans String strle := ⟨fun a b c => charListLeb_trans a.data b.data c.data⟩

instance : IsAntisymm String strle :=
  ⟨fun a b h1 h2 => by
    rcases a with ⟨x⟩; rcases b with ⟨y⟩
    exact congrArg String.mk (charListLeb_antisymm x y h1 h2)⟩

theorem insertionSort_perm_eq {l l' : List String} (h : l.Perm l') :
    List.insertionSort strle l = List.insertionSort strle l' :=
  List.eq_of_perm_of_sorted
    ((List.perm_insertionSort strle l).trans
      (h.trans (List.perm_insertionSort strle l').symm))
    (List.sorted_insertionSort strle l) (List.sorted_insertionSort strle l')

/-- Sorting the elements of a multiset of strings by Python's comparison. -/
def sortMultiset (m : Multiset String) : List String :=
  Quot.lift (List.insertionSort strle) (fun _ _ h => insertionSort_perm_eq h) m

/-- Python's `sorted` applied to a set of strings: the unique
lexicographically sorted listing of the set's elements. -/
def sortedMembers (s : Finset String) : List String :=
  sortMultiset s.val

/-- The state built by `GroupChecker.__init__`. -/
structure GroupChecker where
  previous_groups : List (List String)
  previous_pairs : Finset (String × String)
  previous_students : Finset String
deriving DecidableEq

/-- Model of `GroupChecker.__init__`: derives the pair set and the student set from the
previous groups at construction. -/
def GroupChecker.init (previous_groups : List (List String)) : GroupChecker :=
  { previous_groups := previous_groups
    previous_pairs := build_pair_set previous_groups
    previous_students := get_all_students previous_groups }

/-- One entry of a conflict record: the combination as drawn from the group
(`students`) and its canonical sorted form (`pair`). -/
structure ConflictEntry where
  students : String × String
  pair : String × String
deriving DecidableEq

/-- One conflict record emitted by `check_proposed_groups`. -/
structure Conflict where
  group_index : Nat
  group_members : List String
  conflicts : List ConflictEntry
deriving DecidableEq

/-- The inner loop of `check_proposed_groups` for one proposed group: every
combination (by position) whose canonical pair is in `previous_pairs`, in
enumeration order. -/
def groupConflicts (previous_pairs : Finset (String × String))
    (group : List String) : List ConflictEntry :=
  (comb2 group).filterMap fun p =>
    if sortPair p.1 p.2 ∈ previous_pairs then
      some ⟨(p.1, p.2), sortPair p.1 p.2⟩
    else none

/-- The outer loop of `check_proposed_groups`: `idx` is the running value of
`enumerate`.  A group contributes a record only when its conflict list is
nonempty. -/
def check_aux (previous_pairs : Finset (String × String)) :
    Nat → List (List String) → List Conflict
  | _, [] => []
  | idx, group :: rest =>
    let gc := groupConflicts previous_pairs group
    if gc = [] then check_aux previous_pairs (idx + 1) rest
    else ⟨idx, group, gc⟩ :: check_aux previous_pairs (idx + 1) rest

/-- Model of `GroupChecker.check_proposed_groups`. -/
def GroupChecker.check_proposed_groups (c : GroupChecker)
    (proposed_groups : List (List String)) : List Conflict :=
  check_aux c.previous_pairs 0 proposed_groups

/-- Model of `GroupChecker.find_missing_students`: previous students minus proposed
students, as a sorted list. -/
def GroupChecker.find_missing_students (c : GroupChecker)
    (proposed_groups : List (List String)) : List String :=
  sortedMembers (c.previous_students \ get_all_students proposed_groups)

/-- A JSON document, as decoded by `json.load`. -/
inductive JsonValue where
  | null
  | bool (b : Bool)
  | num (n : Int)
  | str (s : String)
  | arr (elems : List JsonValue)

/-- The distinguishable failure conditions of `load_groups_from_file` and of
`main`'s handler: the Python exception type together with the message shape of
the raising site.  The three `ValueError` sites have distinct messages and are
modelled as three distinct constructors. -/
inductive LoadError where
  | fileNotFound (filepath : String)
  | jsonDecodeError (filepath : String)
  | notAList (filepath : String)
  | groupNotAList (index : Nat) (filepath : String)
  | memberNotString (filepath : String)
  | unexpected (filepath : String)
deriving DecidableEq

/-- Model of `isinstance(member, str)`, keeping the string. -/
def asString : JsonValue → Option String
  | JsonValue.str s => some s
  | _ => none

/-- Model of `all(isinstance(member, str) for member in group)`, keeping the strings. -/
def allStrings : List JsonValue → Option (List String)
  | [] => some []
  | m :: ms =>
    match asString m with
    | none => none
    | some s =>
      match allStrings ms with
      | none => none
      | some ss => some (s :: ss)

/-- The validation loop of `load_groups_from_file`: checks each group in order
(`i` is the running `enumerate` index), first that it is a list, then that all
its members are strings; returns the decoded data when every group passes. -/
def validateGroups (filepath : String) :
    Nat → List JsonValue → Except LoadError (List (List String))
  | _, [] => Except.ok []
  | i, JsonValue.arr members :: gs =>
    match allStrings members with
    | some strs =>
      match validateGroups filepath (i + 1) gs with
      | Except.ok rest => Except.ok (strs :: rest)
      | Except.error e => Except.error e
    | none => Except.error (LoadError.memberNotString filepath)
  | i, _ :: _ => Except.error (LoadError.groupNotAList i filepath)

/-- What the file system yields for a path: the file is absent, its content is
not valid JSON, reading fails for another reason, or it decodes to a JSON
value. -/
inductive FileResult where
  | missing
  | invalidJson
  | readFailure
  | json (v : JsonValue)

/-- Model of `load_groups_from_file`, over an abstract file system `fs`: a missing file
and undecodable content raise their own exception types; a decoded value is
structurally validated and returned unchanged. -/
def load_groups_from_file (fs : String → FileResult) (filepath : String) :
    Except LoadError (List (List String)) :=
  match fs filepath with
  | FileResult.missing => Except.error (LoadError.fileNotFound filepath)
  | FileResult.invalidJson => Except.error (LoadError.jsonDecodeError filepath)
  | FileResult.readFailure => Except.error (LoadError.unexpected filepath)
  | FileResult.json v =>
    match v with
    | JsonValue.arr groups => validateGroups filepath 0 groups
    | _ => Except.error (LoadError.notAList filepath)

/-- The JSON encoding of a well-shaped group. -/
def encodeGroup (g : List String) : JsonValue :=
  JsonValue.arr (g.map JsonValue.str)

/-- The JSON encoding of a well-shaped roster. -/
def encodeGroups (gs : List (List String)) : JsonValue :=
  JsonValue.arr (gs.map encodeGroup)

/-- Model of `main`: loads both files, runs the engine, and returns the process exit
code (`sys.exit` argument).  Any load failure is caught and mapped to 2;
otherwise the code is 1 when conflicts or missing students exist, else 0. -/
def main (fs : String → FileResult) (previous_path proposed_path : String) :
    Nat :=
  match load_groups_from_file fs previous_path with
  | Except.error _ => 2
  | Except.ok previous_groups =>
    match load_groups_from_file fs proposed_path with
    | Except.error _ => 2
    | Except.ok proposed_groups =>
      let checker := GroupChecker.init previous_groups
      let conflicts := checker.check_proposed_groups proposed_groups
      let missing := checker.find_missing_students proposed_groups
      if conflicts = [] ∧ missing = [] then 0 else 1

theorem charListLeb_refl (x : List Char) : charListLeb x x = true := by
  induction x with
  | nil => rfl
  | cons c cs ih => exact (charListLeb_cons_iff c c cs cs).mpr (Or.inr ⟨rfl, ih⟩)

theorem sortPair_comm (a b : String) : sortPair a b = sortPair b a := by
  unfold sortPair
  rcases hab : charListLeb a.data b.data with _ | _ <;>
    rcases hba : charListLeb b.data a.data with _ | _ <;> simp
  · rcases charListLeb_total a.data b.data with h | h
    · exact absurd h (by simp [hab])
    · exact absurd h (by simp [hba])
  · have : b = a := by
      rcases a with ⟨x⟩; rcases b with ⟨y⟩
      exact congrArg String.mk (charListLeb_antisymm y x hba hab)
    exact ⟨this ▸ rfl, this ▸ rfl⟩

theorem sortPair_eq_iff (x y a b : String) :
    sortPair x y = sortPair a b ↔ (x = a ∧ y = b) ∨ (x = b ∧ y = a) := by
  constructor
  · intro h
    unfold sortPair at h
    split at h <;> split at h <;>
      simp only [Prod.mk.injEq] at h <;> tauto
  · rintro (⟨rfl, rfl⟩ | ⟨rfl, rfl⟩)
    · rfl
    · exact sortPair_comm x y

theorem mem_comb2 {α : Type} (l : List α) (p : α × α) :
    p ∈ comb2 l ↔ List.Sublist [p.1, p.2] l := by
  induction l with
  | nil => simp [comb2]
  | cons x xs ih =>
    simp only [comb2, List.mem_append, List.mem_map, ih]
    rw [List.sublist_cons_iff]
    constructor
    · rintro (⟨y, hy, he⟩ | h)
      · subst he
        exact Or.inr ⟨[y], rfl, List.singleton_sublist.mpr hy⟩
      · exact Or.inl h
    · rintro (h | ⟨r, hr, hsub⟩)
      · exact Or.inr h
      · obtain ⟨h1, h2⟩ : p.1 = x ∧ [p.2] = r := by simpa using hr
        refine Or.inl ⟨p.2, List.singleton_sublist.mp (h2 ▸ hsub), ?_⟩
        exact Prod.ext h1.symm rfl

theorem mem_pairList (g : List String) (q : String × String) :
    q ∈ pairList g ↔ ∃ a b, List.Sublist [a, b] g ∧ q = sortPair a b := by
  simp only [pairList, List.mem_map]
  constructor
  · rintro ⟨p, hp, rfl⟩
    exact ⟨p.1, p.2, (mem_comb2 g p).mp hp, rfl⟩
  · rintro ⟨a, b, hab, rfl⟩
    exact ⟨(a, b), (mem_comb2 g (a, b)).mpr hab, rfl⟩

theorem mem_build_pair_set (groups : List (List String)) (q : String × String) :
    q ∈ build_pair_set groups ↔
      ∃ g ∈ groups, ∃ a b, List.Sublist [a, b] g ∧ q = sortPair a b := by
  simp only [build_pair_set, List.mem_toFinset, List.mem_flatten, List.mem_map]
  constructor
  · rintro ⟨l, ⟨g, hg, rfl⟩, hq⟩
    exact ⟨g, hg, (mem_pairList g q).mp hq⟩
  · rintro ⟨g, hg, hq⟩
    exact ⟨pairList g, ⟨g, hg, rfl⟩, (mem_pairList g q).mpr hq⟩

theorem mem_get_all_students (groups : List (List String)) (s : String) :
    s ∈ get_all_students groups ↔ ∃ g ∈ groups, s ∈ g := by
  simp [get_all_students, List.mem_toFinset, List.mem_flatten]

theorem mem_groupConflicts (S : Finset (String × String)) (g : List String)
    (e : ConflictEntry) :
    e ∈ groupConflicts S g ↔
      ∃ a b, List.Sublist [a, b] g ∧ sortPair a b ∈ S ∧ e = ⟨(a, b), sortPair a b⟩ := by
  simp only [groupConflicts, List.mem_filterMap]
  constructor
  · rintro ⟨p, hp, he⟩
    by_cases hm : sortPair p.1 p.2 ∈ S
    · rw [if_pos hm] at he
      exact ⟨p.1, p.2, (mem_comb2 g p).mp hp, hm, (Option.some.inj he).symm⟩
    · rw [if_neg hm] at he
      exact absurd he (Option.noConfusion)
  · rintro ⟨a, b, hab, hm, rfl⟩
    exact ⟨(a, b), (mem_comb2 g (a, b)).mpr hab, by rw [if_pos hm]⟩

theorem mem_check_aux (S : Finset (String × String)) :
    ∀ (Q : List (List String)) (i : Nat) (r : Conflict),
      r ∈ check_aux S i Q ↔
        ∃ j, ∃ h : j < Q.length,
          groupConflicts S Q[j] ≠ [] ∧
          r = ⟨i + j, Q[j], groupConflicts S Q[j]⟩
  | [], i, r => by simp [check_aux]
  | g :: gs, i, r => by
    simp only [check_aux]
    constructor
    · intro hmem
      by_cases hg : groupConflicts S g = []
      · rw [if_pos hg] at hmem
        obtain ⟨j, hj, hne, hr⟩ := (mem_check_aux S gs (i + 1) r).mp hmem
        have hidx : i + 1 + j = i + (j + 1) := by omega
        rw [hidx] at hr
        exact ⟨j + 1, Nat.succ_lt_succ hj, by simpa using hne, by simpa using hr⟩
      · rw [if_neg hg] at hmem
        rcases List.mem_cons.mp hmem with hr | hmem'
        · exact ⟨0, Nat.succ_pos _, by simpa using hg, by simpa using hr⟩
        · obtain ⟨j, hj, hne, hr⟩ := (mem_check_aux S gs (i + 1) r).mp hmem'
          have hidx : i + 1 + j = i + (j + 1) := by omega
          rw [hidx] at hr
          exact ⟨j + 1, Nat.succ_lt_succ hj, by simpa using hne, by simpa using hr⟩
    · rintro ⟨j, hj, hne, hr⟩
      cases j with
      | zero =>
        simp only [List.getElem_cons_zero] at hne hr
        rw [if_neg hne]
        exact List.mem_cons.mpr (Or.inl (by simpa using hr))
      | succ j' =>
        simp only [List.getElem_cons_succ] at hne hr
        have hidx : i + (j' + 1) = i + 1 + j' := by omega
        rw [hidx] at hr
        have hmem' : r ∈ check_aux S (i + 1) gs :=
          (mem_check_aux S gs (i + 1) r).mpr ⟨j', Nat.lt_of_succ_lt_succ hj, hne, hr⟩
        by_cases hg : groupConflicts S g = []
        · rw [if_pos hg]; exact hmem'
        · rw [if_neg hg]; exact List.mem_cons.mpr (Or.inr hmem')

theorem check_aux_sorted (S : Finset (String × String)) :
    ∀ (Q : List (List String)) (i : Nat),
      ((check_aux S i Q).map Conflict.group_index).Pairwise (· < ·)
  | [], _ => by simp [check_aux]
  | g :: gs, i => by
    simp only [check_aux]
    by_cases hg : groupConflicts S g = []
    · rw [if_pos hg]; exact check_aux_sorted S gs (i + 1)
    · rw [if_neg hg]
      simp only [List.map_cons]
      refine List.Pairwise.cons ?_ (check_aux_sorted S gs (i + 1))
      intro b hb
      obtain ⟨r, hr, rfl⟩ := List.mem_map.mp hb
      obtain ⟨j, hj, _, hrr⟩ := (mem_check_aux S gs (i + 1) r).mp hr
      subst hrr
      exact Nat.lt_of_lt_of_le (Nat.lt_succ_self i) (Nat.le_add_right (i + 1) j)

theorem check_aux_eq_nil_iff (S : Finset (String × String)) :
    ∀ (Q : List (List String)) (i : Nat),
      check_aux S i Q = [] ↔ ∀ g ∈ Q, groupConflicts S g = []
  | [], _ => by simp [check_aux]
  | g :: gs, i => by
    simp only [check_aux]
    by_cases hg : groupConflicts S g = []
    · rw [if_pos hg, check_aux_eq_nil_iff S gs (i + 1)]
      simp [hg]
    · rw [if_neg hg]
      simp [hg]

theorem filterMap_mono_sublist {α β : Type} (f g : α → Option β)
    (h : ∀ a b, f a = some b → g a = some b) :
    ∀ l : List α, List.Sublist (l.filterMap f) (l.filterMap g)
  | [] => List.Sublist.refl _
  | x :: xs => by
    rw [List.filterMap_cons, List.filterMap_cons]
    cases hfx : f x with
    | none =>
      cases g x with
      | none => exact filterMap_mono_sublist f g h xs
      | some y =>
        exact (filterMap_mono_sublist f g h xs).trans (List.sublist_cons_self y _)
    | some y =>
      rw [h x y hfx]
      exact List.Sublist.cons₂ y (filterMap_mono_sublist f g h xs)

theorem groupConflicts_mono {S T : Finset (String × String)} (hS : S ⊆ T)
    (g : List String) :
    List.Sublist (groupConflicts S g) (groupConflicts T g) := by
  apply filterMap_mono_sublist
  intro p e hp
  by_cases hm : sortPair p.1 p.2 ∈ S
  · rw [if_pos hm] at hp
    rw [if_pos (hS hm)]
    exact hp
  · rw [if_neg hm] at hp
    exact absurd hp Option.noConfusion

theorem mem_sortMultiset (m : Multiset String) (a : String) :
    a ∈ sortMultiset m ↔ a ∈ m := by
  induction m using Quotient.inductionOn with
  | h l =>
    show a ∈ List.insertionSort strle l ↔ _
    rw [(List.perm_insertionSort strle l).mem_iff]
    exact Multiset.mem_coe.symm

theorem sortMultiset_sorted (m : Multiset String) :
    (sortMultiset m).Sorted strle := by
  induction m using Quotient.inductionOn with
  | h l => exact List.sorted_insertionSort strle l

theorem sortMultiset_nodup (m : Multiset String) (hm : m.Nodup) :
    (sortMultiset m).Nodup := by
  induction m using Quotient.inductionOn with
  | h l => exact ((List.perm_insertionSort strle l).nodup_iff).mpr (Multiset.coe_nodup.mp hm)

theorem mem_sortedMembers (s : Finset String) (a : String) :
    a ∈ sortedMembers s ↔ a ∈ s :=
  mem_sortMultiset s.val a

theorem sortedMembers_sorted (s : Finset String) :
    (sortedMembers s).Sorted strle :=
  sortMultiset_sorted s.val

theorem sortedMembers_nodup (s : Finset String) :
    (sortedMembers s).Nodup :=
  sortMultiset_nodup s.val s.nodup

theorem mem_find_missing_students (c : GroupChecker)
    (Q : List (List String)) (m : String) :
    m ∈ c.find_missing_students Q ↔
      m ∈ c.previous_students ∧ m ∉ get_all_students Q := by
  unfold GroupChecker.find_missing_students
  rw [mem_sortedMembers, Finset.mem_sdiff]

theorem asString_eq_some (m : JsonValue) (s : String) :
    asString m = some s ↔ m = JsonValue.str s := by
  cases m <;> simp [asString]

theorem allStrings_eq_some : ∀ (ms : List JsonValue) (ss : List String),
    allStrings ms = some ss ↔ ms = ss.map JsonValue.str
  | [], ss => by cases ss <;> simp [allStrings]
  | m :: ms, ss => by
    simp only [allStrings]
    rcases hm : asString m with _ | s
    · cases ss with
      | nil => simp
      | cons s' ss' =>
        simp only [List.map_cons]
        constructor
        · intro h; exact absurd h (by simp)
        · intro h
          obtain ⟨h1, _⟩ := List.cons.inj h
          rw [h1, asString] at hm
          cases hm
    · have hmeq : m = JsonValue.str s := (asString_eq_some m s).mp hm
      subst hmeq
      rcases hms : allStrings ms with _ | ss₀
      · cases ss with
        | nil => simp
        | cons s' ss' =>
          simp only [List.map_cons]
          constructor
          · intro h; exact absurd h (by simp)
          · intro h
            obtain ⟨_, h2⟩ := List.cons.inj h
            rw [(allStrings_eq_some ms ss').mpr h2] at hms
            cases hms
      · have hrec := (allStrings_eq_some ms ss₀).mp hms
        cases ss with
        | nil => simp [hrec]
        | cons s' ss' =>
          simp only [List.map_cons, Option.some.injEq, List.cons.injEq]
          constructor
          · rintro ⟨h1, h2⟩
            subst h1
            subst h2
            exact ⟨rfl, hrec⟩
          · rintro ⟨h1, h2⟩
            have hs : s = s' := by injection h1
            have h3 := (allStrings_eq_some ms ss').mpr h2
            rw [hms] at h3
            exact ⟨hs, Option.some.inj h3⟩

theorem allStrings_eq_none_of_mem {ms : List JsonValue} {m : JsonValue}
    (hmem : m ∈ ms) (hm : asString m = none) : allStrings ms = none := by
  induction ms with
  | nil => cases hmem
  | cons x xs ih =>
    simp only [allStrings]
    rcases List.mem_cons.mp hmem with rfl | hmem'
    · rw [hm]
    · rcases hx : asString x with _ | s
      · simp
      · simp only
        rw [ih hmem']

theorem validateGroups_ok (filepath : String) :
    ∀ (gs : List JsonValue) (i : Nat) (out : List (List String)),
      validateGroups filepath i gs = Except.ok out ↔ gs = out.map encodeGroup
  | [], _, out => by cases out <;> simp [validateGroups]
  | g :: gs, i, out => by
    cases g with
    | arr members =>
      simp only [validateGroups]
      rcases hms : allStrings members with _ | strs
      · show Except.error (LoadError.memberNotString filepath) = Except.ok out ↔
          JsonValue.arr members :: gs = List.map encodeGroup out
        cases out with
        | nil => simp
        | cons o os =>
          simp only [List.map_cons]
          constructor
          · intro h; exact absurd h (by simp)
          · intro h
            obtain ⟨h1, _⟩ := List.cons.inj h
            have hmem : members = o.map JsonValue.str := by
              injection h1.trans (rfl : encodeGroup o = JsonValue.arr (o.map JsonValue.str))
            rw [(allStrings_eq_some members o).mpr hmem] at hms
            cases hms
      · rcases hrec : validateGroups filepath (i + 1) gs with e | rest
        · show Except.error e = Except.ok out ↔
            JsonValue.arr members :: gs = List.map encodeGroup out
          cases out with
          | nil => simp
          | cons o os =>
            simp only [List.map_cons]
            constructor
            · intro h; exact absurd h (by simp)
            · intro h
              obtain ⟨_, h2⟩ := List.cons.inj h
              rw [(validateGroups_ok filepath gs (i + 1) os).mpr h2] at hrec
              cases hrec
        · show Except.ok (strs :: rest) = Except.ok out ↔
            JsonValue.arr members :: gs = List.map encodeGroup out
          have hgs := (validateGroups_ok filepath gs (i + 1) rest).mp hrec
          have hmem := (allStrings_eq_some members strs).mp hms
          cases out with
          | nil => simp
          | cons o os =>
            simp only [List.map_cons, Except.ok.injEq, List.cons.injEq]
            constructor
            · rintro ⟨h1, h2⟩
              subst h1
              subst h2
              exact ⟨by rw [hmem]; rfl, hgs⟩
            · rintro ⟨h1, h2⟩
              have ho : members = o.map JsonValue.str := by
                injection h1.trans (rfl : encodeGroup o = JsonValue.arr (o.map JsonValue.str))
              have hso : strs = o := by
                have h3 := (allStrings_eq_some members o).mpr ho
                rw [hms] at h3
                exact Option.some.inj h3
              have hro : rest = os := by
                have h4 := (validateGroups_ok filepath gs (i + 1) os).mpr h2
                rw [hrec] at h4
                exact Except.ok.inj h4
              exact ⟨hso, hro⟩
    | null => cases out <;> simp [validateGroups, encodeGroup]
    | bool b => cases out <;> simp [validateGroups, encodeGroup]
    | num n => cases out <;> simp [validateGroups, encodeGroup]
    | str s => cases out <;> simp [validateGroups, encodeGroup]

theorem validateGroups_error_kinds (filepath : String) :
    ∀ (gs : List JsonValue) (i : Nat) (e : LoadError),
      validateGroups filepath i gs = Except.error e →
        (∃ j, e = LoadError.groupNotAList j filepath) ∨
          e = LoadError.memberNotString filepath
  | [], _, e => by simp [validateGroups]
  | g :: gs, i, e => by
    intro h
    cases g with
    | arr members =>
      simp only [validateGroups] at h
      rcases hms : allStrings members with _ | strs
      · rw [hms] at h
        exact Or.inr (Except.error.inj h).symm
      · rw [hms] at h
        rcases hrec : validateGroups filepath (i + 1) gs with e' | rest
        · rw [hrec] at h
          have he : e' = e := Except.error.inj h
          exact he ▸ validateGroups_error_kinds filepath gs (i + 1) e' hrec
        · rw [hrec] at h
          cases h
    | null => exact Or.inl ⟨i, (Except.error.inj h).symm⟩
    | bool b => exact Or.inl ⟨i, (Except.error.inj h).symm⟩
    | num n => exact Or.inl ⟨i, (Except.error.inj h).symm⟩
    | str s => exact Or.inl ⟨i, (Except.error.inj h).symm⟩

theorem validateGroups_append_not_list (filepath : String) :
    ∀ (pre : List (List String)) (i : Nat) (g : JsonValue) (post : List JsonValue),
      (∀ elems, g ≠ JsonValue.arr elems) →
      validateGroups filepath i (pre.map encodeGroup ++ g :: post) =
        Except.error (LoadError.groupNotAList (i + pre.length) filepath)
  | [], i, g, post => fun hg => by
    cases g with
    | arr elems => exact absurd rfl (hg elems)
    | null => simp [validateGroups]
    | bool b => simp [validateGroups]
    | num n => simp [validateGroups]
    | str s => simp [validateGroups]
  | s :: pre, i, g, post => fun hg => by
    simp only [List.map_cons, List.cons_append, validateGroups, encodeGroup,
      List.append_eq]
    rw [show allStrings (List.map JsonValue.str s) = some s from
      (allStrings_eq_some _ s).mpr rfl]
    rw [validateGroups_append_not_list filepath pre (i + 1) g post hg]
    exact congrArg (fun n => Except.error (LoadError.groupNotAList n filepath))
      (by simp only [List.length_cons]; omega :
        i + 1 + pre.length = i + (s :: pre).length)

theorem validateGroups_append_bad_member (filepath : String) :
    ∀ (pre : List (List String)) (i : Nat) (members post : List JsonValue),
      allStrings members = none →
      validateGroups filepath i
          (pre.map encodeGroup ++ JsonValue.arr members :: post) =
        Except.error (LoadError.memberNotString filepath)
  | [], i, members, post => fun hbad => by
    simp only [List.map_nil, List.nil_append, validateGroups]
    rw [hbad]
  | s :: pre, i, members, post => fun hbad => by
    simp only [List.map_cons, List.cons_append, validateGroups, encodeGroup,
      List.append_eq]
    rw [show allStrings (List.map JsonValue.str s) = some s from
      (allStrings_eq_some _ s).mpr rfl]
    rw [validateGroups_append_bad_member filepath pre (i + 1) members post hbad]

theorem load_json_ok_iff (fp : String) (v : JsonValue) (out : List (List String)) :
    load_groups_from_file (fun _ => FileResult.json v) fp = Except.ok out ↔
      v = encodeGroups out := by
  simp only [load_groups_from_file]
  cases v with
  | arr groups =>
    rw [validateGroups_ok fp groups 0 out]
    simp [encodeGroups]
  | null => simp [encodeGroups]
  | bool b => simp [encodeGroups]
  | num n => simp [encodeGroups]
  | str s => simp [encodeGroups]

theorem load_json_error_kinds (fp : String) (v : JsonValue) (e : LoadError) :
    load_groups_from_file (fun _ => FileResult.json v) fp = Except.error e →
      e = LoadError.notAList fp ∨ (∃ j, e = LoadError.groupNotAList j fp) ∨
        e = LoadError.memberNotString fp := by
  simp only [load_groups_from_file]
  cases v with
  | arr groups =>
    intro h
    rcases validateGroups_error_kinds fp groups 0 e h with h' | h'
    · exact Or.inr (Or.inl h')
    · exact Or.inr (Or.inr h')
  | null => exact fun h => Or.inl (Except.error.inj h).symm
  | bool b => exact fun h => Or.inl (Except.error.inj h).symm
  | num n => exact fun h => Or.inl (Except.error.inj h).symm
  | str s => exact fun h => Or.inl (Except.error.inj h).symm

theorem main_eq_of_error_left {fs : String → FileResult} {p1 p2 : String}
    {e : LoadError} (h : load_groups_from_file fs p1 = Except.error e) :
    main fs p1 p2 = 2 := by
  unfold main
  rw [h]

theorem main_eq_of_error_right {fs : String → FileResult} {p1 p2 : String}
    {P : List (List String)} {e : LoadError}
    (h1 : load_groups_from_file fs p1 = Except.ok P)
    (h2 : load_groups_from_file fs p2 = Except.error e) :
    main fs p1 p2 = 2 := by
  unfold main
  rw [h1, h2]

theorem main_eq_of_ok {fs : String → FileResult} {p1 p2 : String}
    {P Q : List (List String)}
    (h1 : load_groups_from_file fs p1 = Except.ok P)
    (h2 : load_groups_from_file fs p2 = Except.ok Q) :
    main fs p1 p2 =
      if (GroupChecker.init P).check_proposed_groups Q = [] ∧
          (GroupChecker.init P).find_missing_students Q = [] then 0 else 1 := by
  unfold main
  rw [h1, h2]

theorem mem_build_pair_set_pairList (groups : List (List String))
    (q : String × String) :
    q ∈ build_pair_set groups ↔ ∃ g ∈ groups, q ∈ pairList g := by
  simp only [build_pair_set, List.mem_toFinset, List.mem_flatten, List.mem_map]
  constructor
  · rintro ⟨l, ⟨g, hg, rfl⟩, hq⟩
    exact ⟨g, hg, hq⟩
  · rintro ⟨g, hg, hq⟩
    exact ⟨pairList g, ⟨g, hg, rfl⟩, hq⟩

theorem build_pair_set_perm {P P' : List (List String)} (h : P.Perm P') :
    build_pair_set P = build_pair_set P' := by
  apply Finset.ext
  intro q
  rw [mem_build_pair_set_pairList, mem_build_pair_set_pairList]
  constructor <;> rintro ⟨g, hg, hq⟩
  · exact ⟨g, h.mem_iff.mp hg, hq⟩
  · exact ⟨g, h.mem_iff.mpr hg, hq⟩

theorem get_all_students_perm {P P' : List (List String)} (h : P.Perm P') :
    get_all_students P = get_all_students P' := by
  apply Finset.ext
  intro s
  rw [mem_get_all_students, mem_get_all_students]
  constructor <;> rintro ⟨g, hg, hs⟩
  · exact ⟨g, h.mem_iff.mp hg, hs⟩
  · exact ⟨g, h.mem_iff.mpr hg, hs⟩

theorem mem_pairList_reverse (g : List String) (q : String × String) :
    q ∈ pairList g.reverse ↔ q ∈ pairList g := by
  rw [mem_pairList, mem_pairList]
  constructor <;> rintro ⟨a, b, hab, rfl⟩
  · refine ⟨b, a, ?_, sortPair_comm a b⟩
    have h := List.sublist_reverse_iff.mp hab
    simpa using h
  · refine ⟨b, a, ?_, sortPair_comm a b⟩
    rw [List.sublist_reverse_iff]
    simpa using hab

theorem build_pair_set_reverse_middle (pre : List (List String))
    (g : List String) (post : List (List String)) :
    build_pair_set (pre ++ g :: post) =
      build_pair_set (pre ++ g.reverse :: post) := by
  apply Finset.ext
  intro q
  rw [mem_build_pair_set_pairList, mem_build_pair_set_pairList]
  constructor <;> rintro ⟨g', hg', hq⟩
  · rcases List.mem_append.mp hg' with hp | hc
    · exact ⟨g', List.mem_append.mpr (Or.inl hp), hq⟩
    · rcases List.mem_cons.mp hc with rfl | ht
      · exact ⟨g'.reverse, List.mem_append.mpr (Or.inr (List.mem_cons_self _ _)),
          (mem_pairList_reverse g' q).mpr hq⟩
      · exact ⟨g', List.mem_append.mpr (Or.inr (List.mem_cons_of_mem _ ht)), hq⟩
  · rcases List.mem_append.mp hg' with hp | hc
    · exact ⟨g', List.mem_append.mpr (Or.inl hp), hq⟩
    · rcases List.mem_cons.mp hc with rfl | ht
      · exact ⟨g, List.mem_cons_self g post |> (List.mem_append.mpr ∘ Or.inr),
          (mem_pairList_reverse g q).mp hq⟩
      · exact ⟨g', List.mem_append.mpr (Or.inr (List.mem_cons_of_mem _ ht)), hq⟩

theorem comb2_map {α β : Type} (f : α → β) : ∀ l : List α,
    comb2 (l.map f) = (comb2 l).map (Prod.map f f)
  | [] => rfl
  | x :: xs => by
    simp only [List.map_cons, comb2, List.map_append, List.map_map,
      comb2_map f xs]
    rfl

theorem getD_range_map {α : Type} (l : List α) (d : α) :
    (List.range l.length).map (fun i => l.getD i d) = l := by
  apply List.ext_getElem
  · simp
  · intro i h1 h2
    simp [List.getD_eq_getElem, List.getElem?_eq_getElem h2]

theorem comb2_range_lt (n : Nat) :
    ∀ ij : Nat × Nat, ij ∈ comb2 (List.range n) → ij.1 < ij.2 := by
  intro ij hij
  have hsub := (mem_comb2 _ ij).mp hij
  have hpw : List.Pairwise (· < ·) [ij.1, ij.2] :=
    (List.pairwise_lt_range n).sublist hsub
  rcases List.pairwise_cons.mp hpw with ⟨h, _⟩
  exact h ij.2 (List.mem_cons_self _ _)

theorem sortPair_self (a : String) : sortPair a a = (a, a) := by
  unfold sortPair
  rw [charListLeb_refl]
  rfl

/-- C1 (counterexample): the claim states that no self-pair `(a, a)` is ever
an element of the PairSet, even for rosters whose groups list the same name
at two positions.  The code refutes this: for the previous roster
`[["a", "a"]]`, `combinations` draws the two equal-valued positions, and the
self-pair `("a", "a")` is an element of the PairSet. -/
theorem claim_C1_counterexample :
    ("a", "a") ∈ build_pair_set [["a", "a"]] := by decide

/-- C1 (amended): a pair `{a, b}` is in the PairSet built at construction iff
`a` and `b` co-occurred (at two distinct positions) in at least one previous
group; membership is independent of multiplicity (a duplicated roster yields
the same PairSet); and a self-pair `(a, a)` is an element iff some previous
group lists the name `a` at two distinct positions (rather than never). -/
theorem claim_C1 (groups : List (List String)) (a b : String) :
    (sortPair a b ∈ build_pair_set groups ↔
      ∃ g ∈ groups, List.Sublist [a, b] g ∨ List.Sublist [b, a] g)
    ∧ build_pair_set (groups ++ groups) = build_pair_set groups
    ∧ ((a, a) ∈ build_pair_set groups ↔
        ∃ g ∈ groups, List.Sublist [a, a] g) := by
  refine ⟨?_, ?_, ?_⟩
  · rw [mem_build_pair_set]
    constructor
    · rintro ⟨g, hg, x, y, hxy, hsort⟩
      rcases (sortPair_eq_iff x y a b).mp hsort.symm with ⟨rfl, rfl⟩ | ⟨rfl, rfl⟩
      · exact ⟨g, hg, Or.inl hxy⟩
      · exact ⟨g, hg, Or.inr hxy⟩
    · rintro ⟨g, hg, hab | hba⟩
      · exact ⟨g, hg, a, b, hab, rfl⟩
      · exact ⟨g, hg, b, a, hba, sortPair_comm a b⟩
  · apply Finset.ext
    intro q
    rw [mem_build_pair_set_pairList, mem_build_pair_set_pairList]
    constructor
    · rintro ⟨g, hg, hq⟩
      exact ⟨g, (List.mem_append.mp hg).elim id id, hq⟩
    · rintro ⟨g, hg, hq⟩
      exact ⟨g, List.mem_append.mpr (Or.inl hg), hq⟩
  · rw [show ((a, a) : String × String) = sortPair a a from (sortPair_self a).symm,
      mem_build_pair_set]
    constructor
    · rintro ⟨g, hg, x, y, hxy, hsort⟩
      rcases (sortPair_eq_iff x y a a).mp hsort.symm with ⟨rfl, rfl⟩ | ⟨rfl, rfl⟩ <;>
        exact ⟨g, hg, hxy⟩
    · rintro ⟨g, hg, hsub⟩
      exact ⟨g, hg, a, a, hsub, rfl⟩

/-- C2: `check_proposed_groups` returns one record per proposed group with at
least one conflicting combination: a record is in the result iff its index is
a valid proposed-group index, its member list is that group as given, and its
conflict list is that group's (nonempty) enumeration-ordered conflicting
combinations (`groupConflicts`, which records each combination both as drawn
and as its sorted canonical pair); the records are in ascending
proposed-group index order; and the result is empty iff no proposed group
conflicts. -/
theorem claim_C2 (P Q : List (List String)) :
    (∀ r : Conflict,
        r ∈ (GroupChecker.init P).check_proposed_groups Q ↔
          ∃ h : r.group_index < Q.length,
            r.group_members = Q[r.group_index] ∧
            r.conflicts = groupConflicts (build_pair_set P) Q[r.group_index] ∧
            r.conflicts ≠ [])
    ∧ (((GroupChecker.init P).check_proposed_groups Q).map
        Conflict.group_index).Pairwise (· < ·)
    ∧ ((GroupChecker.init P).check_proposed_groups Q = [] ↔
        ∀ g ∈ Q, groupConflicts (build_pair_set P) g = []) := by
  refine ⟨?_, check_aux_sorted _ Q 0, check_aux_eq_nil_iff _ Q 0⟩
  intro r
  rw [show (GroupChecker.init P).check_proposed_groups Q =
      check_aux (build_pair_set P) 0 Q from rfl,
    mem_check_aux]
  constructor
  · rintro ⟨j, hj, hne, rfl⟩
    exact ⟨by simpa using hj, by simp, by simp, by simpa using hne⟩
  · rintro ⟨h, hmem, hconf, hne⟩
    refine ⟨r.group_index, h, ?_, ?_⟩
    · rw [← hconf]
      exact hne
    · rcases r with ⟨gi, gm, gc⟩
      simp only [Conflict.mk.injEq] at hmem hconf ⊢
      exact ⟨(Nat.zero_add gi).symm, hmem, hconf⟩

/-- C3: `find_missing_students` returns exactly the members of the engine's
previous MemberSet that occur in no proposed group, sorted by Python's
lexicographic string order and without duplicates; on the empty proposed
roster it returns the whole previous MemberSet, sorted. -/
theorem claim_C3 (P Q : List (List String)) :
    (∀ m : String,
        m ∈ (GroupChecker.init P).find_missing_students Q ↔
          m ∈ (GroupChecker.init P).previous_students ∧ ∀ g ∈ Q, m ∉ g)
    ∧ ((GroupChecker.init P).find_missing_students Q).Sorted strle
    ∧ ((GroupChecker.init P).find_missing_students Q).Nodup
    ∧ (GroupChecker.init P).find_missing_students [] =
        sortedMembers (GroupChecker.init P).previous_students := by
  refine ⟨?_, sortedMembers_sorted _, sortedMembers_nodup _, ?_⟩
  · intro m
    rw [mem_find_missing_students]
    have hiff : m ∉ get_all_students Q ↔ ∀ g ∈ Q, m ∉ g := by
      simp [mem_get_all_students]
    rw [hiff]
  · show sortedMembers
        ((GroupChecker.init P).previous_students \ get_all_students []) = _
    rw [show get_all_students [] = (∅ : Finset String) from rfl,
      Finset.sdiff_empty]

/-- C7: every member of the previous MemberSet is classified exactly once by
a proposed roster: it is either in the proposed MemberSet and not reported
missing, or absent from the proposed MemberSet and reported missing — never
both, never neither. -/
theorem claim_C7 (P Q : List (List String)) (m : String)
    (hm : m ∈ (GroupChecker.init P).previous_students) :
    (m ∈ get_all_students Q ∧
      m ∉ (GroupChecker.init P).find_missing_students Q)
    ∨ (m ∉ get_all_students Q ∧
      m ∈ (GroupChecker.init P).find_missing_students Q) := by
  by_cases h : m ∈ get_all_students Q
  · refine Or.inl ⟨h, ?_⟩
    rw [mem_find_missing_students]
    rintro ⟨_, hno⟩
    exact hno h
  · exact Or.inr ⟨h, (mem_find_missing_students _ Q m).mpr ⟨hm, h⟩⟩

/-- Witness for C7 at a concrete input: `"b"` was previously grouped and is
absent from the proposed roster `[["a"]]`. -/
theorem claim_C7_witness :
    ("b" ∈ (GroupChecker.init [["a", "b"]]).previous_students) ∧
    (("b" ∈ get_all_students [["a"]] ∧
        "b" ∉ (GroupChecker.init [["a", "b"]]).find_missing_students [["a"]])
      ∨ ("b" ∉ get_all_students [["a"]] ∧
        "b" ∈ (GroupChecker.init [["a", "b"]]).find_missing_students [["a"]])) :=
  ⟨by decide, claim_C7 [["a", "b"]] [["a"]] "b" (by decide)⟩

/-- C4: the exit code is 0 iff both files load and the engine reports no
conflict records and no missing students; 1 iff both files load and at least
one conflict record or missing student exists; 2 iff loading either input
file fails (missing file, invalid JSON, structural validation failure, or
another read error, all modelled as `LoadError`s). -/
theorem claim_C4 (fs : String → FileResult) (prev_path prop_path : String) :
    (main fs prev_path prop_path = 0 ↔
      ∃ P Q, load_groups_from_file fs prev_path = Except.ok P ∧
        load_groups_from_file fs prop_path = Except.ok Q ∧
        (GroupChecker.init P).check_proposed_groups Q = [] ∧
        (GroupChecker.init P).find_missing_students Q = [])
    ∧ (main fs prev_path prop_path = 1 ↔
      ∃ P Q, load_groups_from_file fs prev_path = Except.ok P ∧
        load_groups_from_file fs prop_path = Except.ok Q ∧
        ((GroupChecker.init P).check_proposed_groups Q ≠ [] ∨
          (GroupChecker.init P).find_missing_students Q ≠ []))
    ∧ (main fs prev_path prop_path = 2 ↔
      ((∃ e, load_groups_from_file fs prev_path = Except.error e) ∨
        (∃ e, load_groups_from_file fs prop_path = Except.error e))) := by
  rcases h1 : load_groups_from_file fs prev_path with e1 | P
  · have hm := @main_eq_of_error_left fs prev_path prop_path e1 h1
    refine ⟨?_, ?_, ?_⟩ <;> rw [hm] <;> simp [h1]
  · rcases h2 : load_groups_from_file fs prop_path with e2 | Q
    · have hm := main_eq_of_error_right h1 h2
      refine ⟨?_, ?_, ?_⟩ <;> rw [hm] <;> simp [h1, h2]
    · have hm := main_eq_of_ok h1 h2
      by_cases hc : (GroupChecker.init P).check_proposed_groups Q = [] ∧
          (GroupChecker.init P).find_missing_students Q = []
      · rw [if_pos hc] at hm
        refine ⟨?_, ?_, ?_⟩ <;> rw [hm] <;>
          simp [h1, h2, hc.1, hc.2]
      · rw [if_neg hc] at hm
        refine ⟨?_, ?_, ?_⟩ <;>
          · rw [hm]
            simp [h1, h2, hc, not_and_or]
            try tauto

/-- C5: the loader's structural validation is characterized by: success
returns the decoded data exactly when the document encodes a list of lists of
strings; a non-array top level is rejected as `notAList`; the first offending
group that is not an array is rejected as `groupNotAList` with its index; a
group containing a non-string member is rejected as `memberNotString`; schema
failures are always one of these three kinds; and the three kinds are
pairwise distinct and distinct from the missing-file and JSON-parse error
kinds. -/
theorem claim_C5 :
    (∀ (fp : String) (v : JsonValue) (out : List (List String)),
        load_groups_from_file (fun _ => FileResult.json v) fp = Except.ok out ↔
          v = encodeGroups out)
    ∧ (∀ (fp : String) (v : JsonValue),
        (∀ elems, v ≠ JsonValue.arr elems) →
        load_groups_from_file (fun _ => FileResult.json v) fp =
          Except.error (LoadError.notAList fp))
    ∧ (∀ (fp : String) (pre : List (List String)) (g : JsonValue)
          (post : List JsonValue),
        (∀ elems, g ≠ JsonValue.arr elems) →
        load_groups_from_file
            (fun _ => FileResult.json
              (JsonValue.arr (pre.map encodeGroup ++ g :: post))) fp =
          Except.error (LoadError.groupNotAList pre.length fp))
    ∧ (∀ (fp : String) (pre : List (List String))
          (members post : List JsonValue) (m : JsonValue),
        m ∈ members → (∀ s, m ≠ JsonValue.str s) →
        load_groups_from_file
            (fun _ => FileResult.json
              (JsonValue.arr
                (pre.map encodeGroup ++ JsonValue.arr members :: post))) fp =
          Except.error (LoadError.memberNotString fp))
    ∧ (∀ (fp : String) (v : JsonValue) (e : LoadError),
        load_groups_from_file (fun _ => FileResult.json v) fp =
            Except.error e →
          e = LoadError.notAList fp ∨ (∃ j, e = LoadError.groupNotAList j fp) ∨
            e = LoadError.memberNotString fp)
    ∧ (∀ (fp : String) (i : Nat),
        [LoadError.notAList fp, LoadError.groupNotAList i fp,
          LoadError.memberNotString fp, LoadError.fileNotFound fp,
          LoadError.jsonDecodeError fp].Pairwise (· ≠ ·)) := by
  refine ⟨load_json_ok_iff, ?_, ?_, ?_, load_json_error_kinds, ?_⟩
  · intro fp v hv
    cases v with
    | arr elems => exact absurd rfl (hv elems)
    | null => rfl
    | bool b => rfl
    | num n => rfl
    | str s => rfl
  · intro fp pre g post hg
    have h := validateGroups_append_not_list fp pre 0 g post hg
    rw [Nat.zero_add] at h
    exact h
  · intro fp pre members post m hmem hstr
    have hnone : asString m = none := by
      cases m with
      | str s => exact absurd rfl (hstr s)
      | null => rfl
      | bool b => rfl
      | num n => rfl
      | arr elems => rfl
    exact validateGroups_append_bad_member fp pre 0 members post
      (allStrings_eq_none_of_mem hmem hnone)
  · intro fp i
    simp [List.pairwise_cons]

/-- Witness for C5 at concrete inputs: a non-array document is rejected as
`notAList`; an array whose second element is a number is rejected as
`groupNotAList 1`; a group holding a number is rejected as `memberNotString`;
and the error-kind classification holds for the first rejection. -/
theorem claim_C5_witness :
    (load_groups_from_file (fun _ => FileResult.json (JsonValue.num 3)) "f" =
        Except.error (LoadError.notAList "f"))
    ∧ (load_groups_from_file
          (fun _ => FileResult.json (JsonValue.arr
            (List.map encodeGroup [["a"]] ++ JsonValue.num 3 :: []))) "f" =
        Except.error (LoadError.groupNotAList 1 "f"))
    ∧ (load_groups_from_file
          (fun _ => FileResult.json (JsonValue.arr
            (List.map encodeGroup [] ++
              JsonValue.arr [JsonValue.num 7] :: []))) "f" =
        Except.error (LoadError.memberNotString "f"))
    ∧ (LoadError.notAList "f" = LoadError.notAList "f" ∨
        (∃ j, LoadError.notAList "f" = LoadError.groupNotAList j "f") ∨
        LoadError.notAList "f" = LoadError.memberNotString "f") :=
  ⟨claim_C5.2.1 "f" (JsonValue.num 3) (fun _ h => JsonValue.noConfusion h),
    claim_C5.2.2.1 "f" [["a"]] (JsonValue.num 3) []
      (fun _ h => JsonValue.noConfusion h),
    claim_C5.2.2.2.1 "f" [] [JsonValue.num 7] [] (JsonValue.num 7)
      (List.mem_cons_self _ _) (fun _ h => JsonValue.noConfusion h),
    claim_C5.2.2.2.2.1 "f" (JsonValue.num 3) (LoadError.notAList "f") rfl⟩

/-- C6: permuting the previous roster's groups changes neither
`check_proposed_groups` nor `find_missing_students`, and reversing the member
order within any single previous group leaves `check_proposed_groups`
unchanged. -/
theorem claim_C6 :
    (∀ (P P' Q : List (List String)), P.Perm P' →
        (GroupChecker.init P).check_proposed_groups Q =
          (GroupChecker.init P').check_proposed_groups Q ∧
        (GroupChecker.init P).find_missing_students Q =
          (GroupChecker.init P').find_missing_students Q)
    ∧ (∀ (pre : List (List String)) (g : List String)
          (post Q : List (List String)),
        (GroupChecker.init (pre ++ g :: post)).check_proposed_groups Q =
          (GroupChecker.init (pre ++ g.reverse :: post)).check_proposed_groups
            Q) := by
  constructor
  · intro P P' Q hperm
    constructor
    · show check_aux (build_pair_set P) 0 Q = check_aux (build_pair_set P') 0 Q
      rw [build_pair_set_perm hperm]
    · show sortedMembers (get_all_students P \ get_all_students Q) =
        sortedMembers (get_all_students P' \ get_all_students Q)
      rw [get_all_students_perm hperm]
  · intro pre g post Q
    show check_aux (build_pair_set (pre ++ g :: post)) 0 Q =
      check_aux (build_pair_set (pre ++ g.reverse :: post)) 0 Q
    rw [build_pair_set_reverse_middle]

/-- Witness for C6 at a concrete input: swapping the two previous groups
changes neither operation's result. -/
theorem claim_C6_witness :
    (GroupChecker.init [["a"], ["b"]]).check_proposed_groups [["a", "b"]] =
      (GroupChecker.init [["b"], ["a"]]).check_proposed_groups [["a", "b"]] ∧
    (GroupChecker.init [["a"], ["b"]]).find_missing_students [["a", "b"]] =
      (GroupChecker.init [["b"], ["a"]]).find_missing_students [["a", "b"]] :=
  claim_C6.1 [["a"], ["b"]] [["b"], ["a"]] [["a", "b"]]
    (List.Perm.swap _ _ _)

/-- C8: appending a previous group is monotone: every conflict record
produced from roster `P` reappears, with the same index and members and a
superlist of its conflicting combinations, for roster `P ++ [g]`; and every
missing student for `P` is still missing for `P ++ [g]`. -/
theorem claim_C8 (P : List (List String)) (g : List String)
    (Q : List (List String)) :
    (∀ r ∈ (GroupChecker.init P).check_proposed_groups Q,
        ∃ r' ∈ (GroupChecker.init (P ++ [g])).check_proposed_groups Q,
          r'.group_index = r.group_index ∧
          r'.group_members = r.group_members ∧
          List.Sublist r.conflicts r'.conflicts)
    ∧ ∀ m ∈ (GroupChecker.init P).find_missing_students Q,
        m ∈ (GroupChecker.init (P ++ [g])).find_missing_students Q := by
  have hsub : build_pair_set P ⊆ build_pair_set (P ++ [g]) := by
    intro q hq
    rw [mem_build_pair_set_pairList] at hq ⊢
    obtain ⟨g', hg', hq'⟩ := hq
    exact ⟨g', List.mem_append.mpr (Or.inl hg'), hq'⟩
  constructor
  · intro r hr
    rw [show (GroupChecker.init P).check_proposed_groups Q =
        check_aux (build_pair_set P) 0 Q from rfl, mem_check_aux] at hr
    obtain ⟨j, hj, hne, rfl⟩ := hr
    refine ⟨⟨0 + j, Q[j], groupConflicts (build_pair_set (P ++ [g])) Q[j]⟩,
      ?_, rfl, rfl, groupConflicts_mono hsub Q[j]⟩
    rw [show (GroupChecker.init (P ++ [g])).check_proposed_groups Q =
        check_aux (build_pair_set (P ++ [g])) 0 Q from rfl, mem_check_aux]
    refine ⟨j, hj, ?_, rfl⟩
    intro hnil
    exact hne (List.sublist_nil.mp (hnil ▸ groupConflicts_mono hsub Q[j]))
  · intro m hm
    rw [mem_find_missing_students] at hm ⊢
    refine ⟨?_, hm.2⟩
    have h1 := hm.1
    rw [show (GroupChecker.init P).previous_students =
        get_all_students P from rfl, mem_get_all_students] at h1
    rw [show (GroupChecker.init (P ++ [g])).previous_students =
        get_all_students (P ++ [g]) from rfl, mem_get_all_students]
    obtain ⟨g', hg', hm'⟩ := h1
    exact ⟨g', List.mem_append.mpr (Or.inl hg'), hm'⟩

/-- Witness for C8 at a concrete input: the record for group 0 survives
appending `["a", "c"]` to the previous roster, and the missing student `"b"`
stays missing. -/
theorem claim_C8_witness :
    (∃ r' ∈ (GroupChecker.init ([["a", "b"]] ++ [["a", "c"]])).check_proposed_groups
          [["a", "b", "c"]],
        r'.group_index = 0 ∧ r'.group_members = ["a", "b", "c"] ∧
        List.Sublist [(⟨("a", "b"), ("a", "b")⟩ : ConflictEntry)] r'.conflicts)
    ∧ "b" ∈ (GroupChecker.init ([["a", "b"]] ++ [["a", "c"]])).find_missing_students
        [["a", "c"]] :=
  ⟨(claim_C8 [["a", "b"]] ["a", "c"] [["a", "b", "c"]]).1
      ⟨0, ["a", "b", "c"], [⟨("a", "b"), ("a", "b")⟩]⟩ (by decide),
    (claim_C8 [["a", "b"]] ["a", "c"] [["a", "c"]]).2 "b" (by decide)⟩

/-- C9: conflicting combinations are enumerated by position: a group's
conflict list equals the filter of the position pairs `(i, j)` of
`combinations(range n, 2)` whose sorted member pair is in the previous
PairSet; every enumerated position pair has `i < j`; and a group listing the
same member twice can yield several entries with the same canonical pair. -/
theorem claim_C9 :
    (∀ (S : Finset (String × String)) (g : List String),
        groupConflicts S g =
          (comb2 (List.range g.length)).filterMap (fun ij =>
            if sortPair (g.getD ij.1 "") (g.getD ij.2 "") ∈ S then
              some ⟨(g.getD ij.1 "", g.getD ij.2 ""),
                sortPair (g.getD ij.1 "") (g.getD ij.2 "")⟩
            else none))
    ∧ (∀ (n : Nat) (ij : Nat × Nat), ij ∈ comb2 (List.range n) → ij.1 < ij.2)
    ∧ groupConflicts (build_pair_set [["a", "b"]]) ["a", "b", "b"] =
        [⟨("a", "b"), ("a", "b")⟩, ⟨("a", "b"), ("a", "b")⟩] := by
  refine ⟨?_, comb2_range_lt, by decide⟩
  intro S g
  have h0 : g = (List.range g.length).map (fun i => g.getD i "") :=
    (getD_range_map g "").symm
  conv_lhs => rw [h0]
  simp only [groupConflicts]
  rw [comb2_map, List.filterMap_map]
  rfl

/-- Witness for C9 at a concrete input: the position pair `(0, 2)` of a
3-member group satisfies `0 < 2`. -/
theorem claim_C9_witness : (0 : Nat) < 2 :=
  claim_C9.2.1 3 (0, 2) (by decide)

/-- C10: the engine's operations are total Lean functions on every
list-of-lists-of-strings input (no error branch exists in the embedding), and
every conflict record is well-formed: its index addresses the proposed
roster, its member list is the proposed group at that index, and every
entry's canonical pair is the sorted pair of its two students, both of which
are members of that group. -/
theorem claim_C10 (P Q : List (List String)) :
    ∀ r ∈ (GroupChecker.init P).check_proposed_groups Q,
      ∃ h : r.group_index < Q.length,
        r.group_members = Q[r.group_index] ∧
        ∀ e ∈ r.conflicts,
          e.pair = sortPair e.students.1 e.students.2 ∧
          e.students.1 ∈ r.group_members ∧ e.students.2 ∈ r.group_members := by
  intro r hr
  rw [show (GroupChecker.init P).check_proposed_groups Q =
      check_aux (build_pair_set P) 0 Q from rfl, mem_check_aux] at hr
  obtain ⟨j, hj, hne, rfl⟩ := hr
  refine ⟨by simpa using hj, by simp, ?_⟩
  intro e he
  rw [show (⟨0 + j, Q[j], groupConflicts (build_pair_set P) Q[j]⟩ :
      Conflict).conflicts = groupConflicts (build_pair_set P) Q[j] from rfl,
    mem_groupConflicts] at he
  obtain ⟨a, b, hab, hmem, rfl⟩ := he
  exact ⟨rfl, hab.subset (by simp), hab.subset (by simp)⟩

/-- Witness for C10 at a concrete input: the record produced for the proposed
group `["a", "b", "c"]` against previous roster `[["a", "b"]]` is
well-formed. -/
theorem claim_C10_witness :
    ∃ h : (0 : Nat) < [["a", "b", "c"]].length,
      (["a", "b", "c"] : List String) = [["a", "b", "c"]][0] ∧
      ∀ e ∈ [(⟨("a", "b"), ("a", "b")⟩ : ConflictEntry)],
        e.pair = sortPair e.students.1 e.students.2 ∧
        e.students.1 ∈ ["a", "b", "c"] ∧ e.students.2 ∈ ["a", "b", "c"] :=
  claim_C10 [["a", "b"]] [["a", "b", "c"]]
    ⟨0, ["a", "b", "c"], [⟨("a", "b"), ("a", "b")⟩]⟩ (by decide)

example :
    (GroupChecker.init [["Alice", "Bob", "Charlie"]]).check_proposed_groups
      [["Alice", "Bob", "David"]] =
    [⟨0, ["Alice", "Bob", "David"],
      [⟨("Alice", "Bob"), ("Alice", "Bob")⟩]⟩] := by decide

example :
    (GroupChecker.init [["Zoe", "Alice", "Mike"]]).find_missing_students
      [["David", "Eve"]] = ["Alice", "Mike", "Zoe"] := by decide

example : ("a", "a") ∈ build_pair_set [["a", "a"]] := by decide

end GroupCheck
